import Mathlib

/-!
Shallow embedding of the `@elizaos/plugin-shell` core
(`src/utils/pathUtils.ts` and `src/services/shellService.ts`).

Strings are modelled as `List Char` (`Str`).  JavaScript regular-expression
checks are modelled by equivalent recursive scanners, documented at each
definition.  Node's `path` functions (posix flavour, the service runs the
commands with `/`-separated absolute paths) are modelled segment-wise.
The child-process spawn is the only impure part of the service; it is
modelled as an oracle parameter `Str → Str → CommandResult` giving the
result `runCommand` would produce for a command in a working directory.
-/

namespace PluginShell

/-- Command strings and paths, modelled as lists of characters. -/
abbrev Str := List Char

/-- Whitespace test backing JavaScript `\s`, `String.prototype.trim` and
`split(/\s+/)`.  (JS whitespace also covers further Unicode space code
points; the service only ever meets ASCII whitespace.) -/
def isWs (c : Char) : Bool :=
  c = ' ' || c = '\t' || c = '\n' || c = '\r' || c = '\x0b' || c = '\x0c' || c = ' '

/-- JavaScript `String.prototype.trim`. -/
def trim (s : Str) : Str :=
  ((s.dropWhile isWs).reverse.dropWhile isWs).reverse

/-- Prepend a character to the first piece of a split result. -/
def consHead (c : Char) : List Str → List Str
  | [] => [[c]]
  | h :: t => (c :: h) :: t

mutual

/-- JavaScript `String.prototype.split(/\s+/)`: splits at every maximal
run of whitespace; a leading or trailing run contributes an empty piece,
exactly as in JS. -/
def splitWs : Str → List Str
  | [] => [[]]
  | c :: t => if isWs c then [] :: splitWsSkip t else consHead c (splitWs t)

/-- Helper of `splitWs`: consumes the rest of a whitespace run. -/
def splitWsSkip : Str → List Str
  | [] => [[]]
  | c :: t => if isWs c then splitWsSkip t else consHead c (splitWs t)

end

/-- Split a path at every `/` (used to model Node `path` normalization). -/
def splitSlash : Str → List Str
  | [] => [[]]
  | c :: t => if c = '/' then [] :: splitSlash t else consHead c (splitSlash t)

/-- Substring test backing `String.prototype.includes` and the literal
regular expressions such as `/\.\.\//`. -/
def isSubstring (pat : Str) : Str → Bool
  | [] => pat.isEmpty
  | c :: t => pat.isPrefixOf (c :: t) || isSubstring pat t

/-- The backtick character (code point 96). -/
def backtickChar : Char := Char.ofNat 96

/-- The single-quote character (code point 39). -/
def quoteChar : Char := Char.ofNat 39

mutual

/-- Scanner state of `/`[^']*`/` after an opening backtick: a further
backtick closes the match; a single quote kills the open backtick and the
search restarts. -/
def backtickOpen : Str → Bool
  | [] => false
  | c :: t =>
    if c = backtickChar then true
    else if c = quoteChar then backtickFind t
    else backtickOpen t

/-- JavaScript regex `/`[^']*`/` (command substitution via backticks,
tolerated inside single-quoted spans): true iff some backtick is followed
by a later backtick with no single quote strictly between them. -/
def backtickFind : Str → Bool
  | [] => false
  | c :: t => if c = backtickChar then backtickOpen t else backtickFind t

end

/-- After `\s*`: skip whitespace, then require `lit` as a prefix.  (The
literals used never start with whitespace, so the greedy `\s*` is forced
to consume the whole whitespace run.) -/
def wsThenLit (lit : Str) : Str → Bool
  | [] => lit.isEmpty
  | c :: t => if isWs c then wsThenLit lit t else lit.isPrefixOf (c :: t)

/-- JavaScript regex of shape `X\s*LIT` (e.g. `/\|\s*sudo/`, `/&\s*&/`):
true iff some occurrence of character `a` is followed, after optional
whitespace, by the literal `lit`. -/
def charWsLit (a : Char) (lit : Str) : Str → Bool
  | [] => false
  | c :: t => (c = a && wsThenLit lit t) || charWsLit a lit t

/-- `isSafeCommand` from `src/utils/pathUtils.ts`: rejects path-traversal
patterns (`../`, `..\`, `/..`, `\..`), dangerous patterns (`$(`, backtick
substitution, `|`/`;` followed by `sudo`, `&&`, `||`) and more than one
`|` character; accepts everything else. -/
def isSafeCommand (command : Str) : Bool :=
  if isSubstring ['.', '.', '/'] command || isSubstring ['.', '.', '\\'] command
      || isSubstring ['/', '.', '.'] command || isSubstring ['\\', '.', '.'] command then
    false
  else if isSubstring ['$', '('] command || backtickFind command
      || charWsLit '|' ['s', 'u', 'd', 'o'] command
      || charWsLit ';' ['s', 'u', 'd', 'o'] command
      || charWsLit '&' ['&'] command
      || charWsLit '|' ['|'] command then
    false
  else if 1 < command.count '|' then
    false
  else
    true

/-- `extractBaseCommand` from `src/utils/pathUtils.ts`: first
whitespace-delimited token of the trimmed command (empty if none). -/
def extractBaseCommand (fullCommand : Str) : Str :=
  (splitWs (trim fullCommand)).headD []

/-- JavaScript `String.prototype.toLowerCase` (ASCII; the service only
lower-cases command words). -/
def lowerStr (s : Str) : Str := s.map Char.toLower

/-- `isForbiddenCommand` from `src/utils/pathUtils.ts`: a deny entry
matches if the lower-cased trimmed command starts with the lower-cased
entry, or — for entries without a space — if the command's first token
equals the entry (case-insensitively). -/
def isForbiddenCommand (command : Str) (forbiddenCommands : List Str) : Bool :=
  let normalizedCommand := lowerStr (trim command)
  forbiddenCommands.any fun forbidden =>
    let forbiddenLower := lowerStr forbidden
    if forbiddenLower.isPrefixOf normalizedCommand then true
    else if !forbidden.contains ' ' then
      lowerStr (extractBaseCommand command) == forbiddenLower
    else false

/-- A path is absolute iff it starts with `/` (Node posix). -/
def isAbsolute : Str → Bool
  | [] => false
  | c :: _ => c = '/'

/-- One step of Node's segment normalization for an absolute path:
empty and `.` segments vanish, `..` pops (and is dropped at the root),
anything else is pushed.  The stack is kept reversed. -/
def stepAbs (stack : List Str) (seg : Str) : List Str :=
  if seg = [] || seg = ['.'] then stack
  else if seg = ['.', '.'] then stack.tail
  else seg :: stack

/-- Join path segments with `/`. -/
def joinSegs : List Str → Str
  | [] => []
  | [s] => s
  | s :: rest => s ++ '/' :: joinSegs rest

/-- Render a (reversed) segment stack as an absolute path. -/
def renderAbs (stack : List Str) : Str :=
  '/' :: joinSegs stack.reverse

/-- Normalize a `/`-rooted path string, as Node `path.resolve` does with
its (absolute) result: collapse `.`, `..` and empty segments, no trailing
slash. -/
def resolveAbs (s : Str) : Str :=
  renderAbs ((splitSlash s).foldl stepAbs [])

/-- Node posix `path.resolve(base, p)` for the absolute working
directories used by the service: an absolute `p` wins, a relative `p` is
appended to `base`; the result is normalized. -/
def pathResolve (base p : Str) : Str :=
  if isAbsolute p then resolveAbs p else resolveAbs (base ++ '/' :: p)

/-- One step of Node's `normalizeString`: like `stepAbs`, but when the
path is relative (`allowAboveRoot`), a `..` with nothing to pop (or atop
another `..`) is kept. -/
def stepNorm (abs : Bool) (stack : List Str) (seg : Str) : List Str :=
  if seg = [] || seg = ['.'] then stack
  else if seg = ['.', '.'] then
    match stack with
    | top :: rest => if top = ['.', '.'] then seg :: stack else rest
    | [] => if abs then [] else [seg]
  else seg :: stack

/-- Node posix `path.normalize`: segment collapse preserving a trailing
separator, `.` for an empty relative result, `/` for an empty absolute
one. -/
def pathNormalize (s : Str) : Str :=
  if s = [] then ['.']
  else
    let abs := isAbsolute s
    let trail := s.getLast? == some '/'
    let body := joinSegs (((splitSlash s).foldl (stepNorm abs) []).reverse)
    if body = [] then
      if abs then ['/'] else if trail then ['.', '/'] else ['.']
    else
      let body := if trail then body ++ ['/'] else body
      if abs then '/' :: body else body

/-- `validatePath` from `src/utils/pathUtils.ts`: resolve the candidate
against the current directory, normalize, and accept iff the result has
the normalized allowed directory as a plain string prefix.  (The
`try`/`catch` of the source is dead here: none of the path operations
throw on strings.) -/
def validatePath (commandPath allowedDir currentDir : Str) : Option Str :=
  let resolvedPath := pathResolve currentDir commandPath
  let normalizedPath := pathNormalize resolvedPath
  let normalizedAllowed := pathNormalize allowedDir
  if normalizedAllowed.isPrefixOf normalizedPath then some normalizedPath
  else none

/-! ## The shell service (`src/services/shellService.ts`) -/

/-- `CommandResult` of `shellService.ts`.  `exitCode` is
`number | null`, hence `Option Int`; `error` is an optional field. -/
structure CommandResult where
  success : Bool
  stdout : Str
  stderr : Str
  exitCode : Option Int
  error : Option Str := none
  executedIn : Str
deriving DecidableEq

/-- The seven inferred file-operation kinds of `shellService.ts`. -/
inductive FileOpType where
  | create | write | read | delete | mkdir | move | copy
deriving DecidableEq

/-- `FileOperation` of `shellService.ts`. -/
structure FileOperation where
  type : FileOpType
  target : Str
  secondaryTarget : Option Str := none
deriving DecidableEq

/-- `CommandHistoryEntry` of `shellService.ts`.  Timestamps
(`Date.now()`) are modelled as a `Nat` supplied by the caller. -/
structure CommandHistoryEntry where
  command : Str
  stdout : Str
  stderr : Str
  exitCode : Option Int
  timestamp : Nat
  workingDirectory : Str
  fileOperations : Option (List FileOperation)
deriving DecidableEq

/-- `ShellConfig` as consumed by the service (`loadShellConfig`). -/
structure ShellConfig where
  enabled : Bool
  allowedDirectory : Str
  timeout : Nat
  forbiddenCommands : List Str

/-- The mutable state of a `ShellService` instance: the directory cursor
and the conversation-id → history map.  The `Map` is modelled as a total
function defaulting to `[]`, matching `get(...) || []` reads. -/
structure ShellState where
  currentDirectory : Str
  commandHistory : Str → List CommandHistoryEntry

/-- The service constructor: cursor at the allowed directory, empty
history map. -/
def initialState (cfg : ShellConfig) : ShellState :=
  { currentDirectory := cfg.allowedDirectory, commandHistory := fun _ => [] }

/-- `this.maxHistoryPerConversation` of `shellService.ts`. -/
def maxHistoryPerConversation : Nat := 100

/-- JavaScript truthiness of the optional `conversationId` argument:
`undefined` and the empty string are falsy. -/
def jsTruthy : Option Str → Bool
  | none => false
  | some s => !s.isEmpty

/-- The history entry built inside `addToHistory`. -/
def mkHistoryEntry (command : Str) (result : CommandResult)
    (fileOperations : Option (List FileOperation)) (now : Nat) :
    CommandHistoryEntry :=
  { command := command
    stdout := result.stdout
    stderr := result.stderr
    exitCode := result.exitCode
    timestamp := now
    workingDirectory := result.executedIn
    fileOperations := fileOperations }

/-- `history.push(entry)` followed by the trim
`if (history.length > maxHistoryPerConversation) history.shift()`. -/
def pushTrim (history : List CommandHistoryEntry) (entry : CommandHistoryEntry) :
    List CommandHistoryEntry :=
  if maxHistoryPerConversation < (history ++ [entry]).length then (history ++ [entry]).tail
  else history ++ [entry]

/-- `addToHistory` of `shellService.ts`: a falsy conversation id records
nothing; otherwise the entry is appended to that conversation's list,
dropping the oldest entry past the bound; other keys are untouched. -/
def addToHistory (hist : Str → List CommandHistoryEntry) (conversationId : Option Str)
    (command : Str) (result : CommandResult)
    (fileOperations : Option (List FileOperation)) (now : Nat) :
    Str → List CommandHistoryEntry :=
  match conversationId with
  | none => hist
  | some cid =>
    if cid.isEmpty then hist
    else
      let entry := mkHistoryEntry command result fileOperations now
      fun k => if k = cid then pushTrim (hist cid) entry else hist k

/-- `Array.prototype.join(sep)` over string pieces
(`parts.slice(1).join(' ')`). -/
def joinWith (sep : Char) : List Str → Str
  | [] => []
  | [s] => s
  | s :: rest => s ++ sep :: joinWith sep rest

/-- `handleCdCommand` of `shellService.ts`, returning the result and the
new cursor.  Without an argument the cursor resets to the allowed
directory; otherwise the target (the space-joined remaining tokens) must
pass `validatePath`, else the cursor is unchanged. -/
def handleCdCommand (cfg : ShellConfig) (command : Str) (currentDirectory : Str) :
    CommandResult × Str :=
  let parts := splitWs command
  if parts.length < 2 then
    let newDir := cfg.allowedDirectory
    ({ success := true
       stdout := ("Changed directory to: ".toList) ++ newDir
       stderr := []
       exitCode := some 0
       executedIn := newDir }, newDir)
  else
    match validatePath (joinWith ' ' (parts.drop 1)) cfg.allowedDirectory currentDirectory with
    | none =>
      ({ success := false
         stdout := []
         stderr := "Cannot navigate outside allowed directory".toList
         exitCode := some 1
         error := some ("Permission denied".toList)
         executedIn := currentDirectory }, currentDirectory)
    | some validatedPath =>
      ({ success := true
         stdout := ("Changed directory to: ".toList) ++ validatedPath
         stderr := []
         exitCode := some 0
         executedIn := validatedPath }, validatedPath)

/-- The spawn decision of `runCommand` (lines 207–224): commands with a
redirect or pipe character go through `sh -c <command>`; every other
command is split on whitespace into program and argument list.  Returns
(program, arguments, via-shell). -/
def runCommandSpawnSpec (command : Str) : Str × List Str × Bool :=
  let useShell := command.contains '>' || command.contains '<' || command.contains '|'
  if useShell then
    (['s', 'h'], [['-', 'c'], command], true)
  else
    let parts := splitWs command
    (parts.headD [], parts.tail, false)

/-- The `CommandResult` resolved by `runCommand`'s `error` handler (spawn
failure, lines 290–300): failure, the stdout captured so far, the OS
error message as stderr, exit code 1. -/
def runCommandOnError (stdoutSoFar : Str) (errMessage : Str) (currentDirectory : Str) :
    CommandResult :=
  { success := false
    stdout := stdoutSoFar
    stderr := errMessage
    exitCode := some 1
    error := some ("Failed to execute command".toList)
    executedIn := currentDirectory }

/-- Node posix `path.join(a, b)` as used by `resolvePath`: empty pieces
are skipped, the pieces are joined with `/` and the result normalized
(`.` when everything is empty). -/
def pathJoin (a b : Str) : Str :=
  if a.isEmpty && b.isEmpty then ['.']
  else if a.isEmpty then pathNormalize b
  else if b.isEmpty then pathNormalize a
  else pathNormalize (a ++ '/' :: b)

/-- `resolvePath` of `shellService.ts`: absolute paths pass through,
relative ones are joined onto the working directory. -/
def resolvePath (filePath : Str) (cwd : Str) : Str :=
  if isAbsolute filePath then filePath else pathJoin cwd filePath

/-- JavaScript regex `/>\s*([^\s]+)$/` used for `echo` redirection: the
leftmost `>` that is followed only by optional whitespace and then one
final whitespace-free token; returns that token. -/
def echoTarget : Str → Option Str
  | [] => none
  | c :: t =>
    if c = '>' then
      let d := t.dropWhile isWs
      if !d.isEmpty && d.all (fun x => !isWs x) then some d else echoTarget t
    else echoTarget t

/-- `detectFileOperations` of `shellService.ts`: a surface-syntax
heuristic on the first token (`touch`/`echo`/`mkdir`/`cat`/`mv`/`cp`);
returns `none` (JS `undefined`) when no operation is inferred. -/
def detectFileOperations (command : Str) (cwd : Str) : Option (List FileOperation) :=
  let parts := splitWs (trim command)
  let cmd := lowerStr (parts.headD [])
  let operations : List FileOperation :=
    if cmd = "touch".toList && 1 < parts.length then
      [{ type := .create, target := resolvePath (parts.getD 1 []) cwd }]
    else if cmd = "echo".toList && command.contains '>' then
      match echoTarget command with
      | some tgt => [{ type := .write, target := resolvePath tgt cwd }]
      | none => []
    else if cmd = "mkdir".toList && 1 < parts.length then
      [{ type := .mkdir, target := resolvePath (parts.getD 1 []) cwd }]
    else if cmd = "cat".toList && 1 < parts.length && !command.contains '>' then
      [{ type := .read, target := resolvePath (parts.getD 1 []) cwd }]
    else if cmd = "mv".toList && 2 < parts.length then
      [{ type := .move, target := resolvePath (parts.getD 1 []) cwd
         secondaryTarget := some (resolvePath (parts.getD 2 []) cwd) }]
    else if cmd = "cp".toList && 2 < parts.length then
      [{ type := .copy, target := resolvePath (parts.getD 1 []) cwd
         secondaryTarget := some (resolvePath (parts.getD 2 []) cwd) }]
    else []
  if operations.isEmpty then none else some operations

/-- The early-return result of the disabled check. -/
def disabledResult (dir : Str) : CommandResult :=
  { success := false
    stdout := []
    stderr := "Shell plugin is disabled. Set SHELL_ENABLED=true to enable.".toList
    exitCode := some 1
    error := some ("Shell plugin disabled".toList)
    executedIn := dir }

/-- The early-return result of the shape check (empty command). -/
def invalidCommandResult (dir : Str) : CommandResult :=
  { success := false
    stdout := []
    stderr := "Invalid command".toList
    exitCode := some 1
    error := some ("Command must be a non-empty string".toList)
    executedIn := dir }

/-- The early-return result of the `isSafeCommand` rejection. -/
def policyViolationResult (dir : Str) : CommandResult :=
  { success := false
    stdout := []
    stderr := "Command contains forbidden patterns".toList
    exitCode := some 1
    error := some ("Security policy violation".toList)
    executedIn := dir }

/-- The early-return result of the `isForbiddenCommand` rejection. -/
def forbiddenResult (dir : Str) : CommandResult :=
  { success := false
    stdout := []
    stderr := "Command is forbidden by security policy".toList
    exitCode := some 1
    error := some ("Forbidden command".toList)
    executedIn := dir }

/-- `executeCommand` of `shellService.ts` (lines 76–150), with the
child-process spawn abstracted as `oracle` (the `CommandResult` that
`runCommand` produces for a command in a working directory) and the
`Date.now()` timestamp as `now`.  Returns the result together with the
updated service state. -/
def executeCommand (cfg : ShellConfig) (oracle : Str → Str → CommandResult)
    (now : Nat) (st : ShellState) (command : Str) (conversationId : Option Str) :
    CommandResult × ShellState :=
  if !cfg.enabled then (disabledResult st.currentDirectory, st)
  else if command.isEmpty then (invalidCommandResult st.currentDirectory, st)
  else
    let trimmedCommand := trim command
    if !isSafeCommand trimmedCommand then
      (policyViolationResult st.currentDirectory, st)
    else if isForbiddenCommand trimmedCommand cfg.forbiddenCommands then
      (forbiddenResult st.currentDirectory, st)
    else if (['c', 'd', ' ']).isPrefixOf trimmedCommand then
      let res := handleCdCommand cfg trimmedCommand st.currentDirectory
      let hist := addToHistory st.commandHistory conversationId trimmedCommand res.1 none now
      (res.1, { currentDirectory := res.2, commandHistory := hist })
    else
      let result := oracle trimmedCommand st.currentDirectory
      if result.success then
        let fileOps := detectFileOperations trimmedCommand st.currentDirectory
        if fileOps.isSome && jsTruthy conversationId then
          (result, { currentDirectory := st.currentDirectory
                     commandHistory := addToHistory st.commandHistory conversationId
                       trimmedCommand result fileOps now })
        else
          (result, { currentDirectory := st.currentDirectory
                     commandHistory := addToHistory st.commandHistory conversationId
                       trimmedCommand result none now })
      else
        (result, { currentDirectory := st.currentDirectory
                   commandHistory := addToHistory st.commandHistory conversationId
                     trimmedCommand result none now })

/-! ## Spec-side boundary predicate and concrete fixtures -/

/-- Modelled from the spec: the boundary-aware containment relation the
specification demands of `validatePath` and of the cursor invariant —
`p` equals the allowed root or extends it at a full path-segment
boundary. -/
def specDescendantOrSelf (root p : Str) : Bool :=
  p == root || (root ++ ['/']).isPrefixOf p

/-- A concrete enabled configuration rooted at `/allowed` with no deny
list, used by the concrete executions below. -/
def cfgA : ShellConfig :=
  { enabled := true
    allowedDirectory := "/allowed".toList
    timeout := 30000
    forbiddenCommands := [] }

/-- `cfgA` with the single-word deny entry `rm`. -/
def cfgF : ShellConfig :=
  { cfgA with forbiddenCommands := [("rm".toList)] }

/-- A fixed spawn oracle (every spawned command fails generically); the
claims below never depend on its answers. -/
def oracle0 : Str → Str → CommandResult :=
  fun _ dir =>
    { success := false
      stdout := []
      stderr := []
      exitCode := some 1
      executedIn := dir }

/-! ## Claims -/

/-- Claim C1: the claim says `validatePath` accepts iff the normalized
resolution is the allowed root or extends it at a path-segment boundary,
and in particular rejects `/allowed-evil` under root `/allowed`.  The
code compares with a raw string `startsWith`, so it accepts
`/allowed-evil` (returning it), although that path is outside the
spec's segment-boundary containment relation. -/
theorem claim1_validatePath_accepts_allowed_evil :
    validatePath ("/allowed-evil".toList) ("/allowed".toList) ("/allowed".toList)
      = some ("/allowed-evil".toList)
    ∧ specDescendantOrSelf ("/allowed".toList) ("/allowed-evil".toList) = false := by
  decide

/-- Claim C2: the claim says the cursor always stays at the allowed
directory or a descendant of it.  Executing `cd /allowed-evil` from the
initial state of the `/allowed` configuration moves the cursor to
`/allowed-evil`, which is not a descendant of `/allowed`. -/
theorem claim2_cursor_escapes_allowed_root :
    (executeCommand cfgA oracle0 0 (initialState cfgA) ("cd /allowed-evil".toList)
        (some ("s1".toList))).2.currentDirectory = "/allowed-evil".toList
    ∧ specDescendantOrSelf cfgA.allowedDirectory ("/allowed-evil".toList) = false := by
  decide

/-- Claim C3 (counterexample): a command rejected by the safety
classifier, executed with a session identifier from the fresh state,
leaves that session's history empty — no `HistoryEntry` records the
failed attempt, contrary to the claim. -/
theorem claim3_policy_rejection_not_recorded_cx :
    ((executeCommand cfgA oracle0 0 (initialState cfgA) ("ls | grep x | wc -l".toList)
        (some ("s1".toList))).2.commandHistory ("s1".toList)) = []
    ∧ (executeCommand cfgA oracle0 0 (initialState cfgA) ("ls | grep x | wc -l".toList)
        (some ("s1".toList))).1.error = some ("Security policy violation".toList)
    ∧ ((executeCommand cfgF oracle0 0 (initialState cfgF) ("rm x".toList)
        (some ("s1".toList))).2.commandHistory ("s1".toList)) = []
    ∧ (executeCommand cfgF oracle0 0 (initialState cfgF) ("rm x".toList)
        (some ("s1".toList))).1.error = some ("Forbidden command".toList) := by
  decide

/-- Claim C3 (amended): a PolicyViolation or Forbidden rejection returns
its early-return result and leaves the service state — in particular
every session's history — completely unchanged, just as the Disabled and
InvalidInput rejections do. -/
theorem claim3_rejections_leave_state_unchanged
    (cfg : ShellConfig) (oracle : Str → Str → CommandResult) (now : Nat)
    (st : ShellState) (command : Str) (sid : Option Str) :
    (cfg.enabled = true → command ≠ [] → isSafeCommand (trim command) = false →
      executeCommand cfg oracle now st command sid
        = (policyViolationResult st.currentDirectory, st))
    ∧ (cfg.enabled = true → command ≠ [] → isSafeCommand (trim command) = true →
      isForbiddenCommand (trim command) cfg.forbiddenCommands = true →
      executeCommand cfg oracle now st command sid
        = (forbiddenResult st.currentDirectory, st)) := by
  constructor
  · intro hen hne hsafe
    simp [executeCommand, hen, hsafe, hne]
  · intro hen hne hsafe hforb
    simp [executeCommand, hen, hsafe, hne, hforb]

/-- Claim C3 (witness for the amended theorem): concrete unsafe and
forbidden commands exercising both conjuncts. -/
theorem claim3_rejections_witness :
    (cfgA.enabled = true ∧ ("ls | grep x | wc -l".toList : Str) ≠ []
      ∧ isSafeCommand (trim ("ls | grep x | wc -l".toList)) = false
      ∧ executeCommand cfgA oracle0 0 (initialState cfgA) ("ls | grep x | wc -l".toList)
          (some ("s1".toList))
        = (policyViolationResult (initialState cfgA).currentDirectory, initialState cfgA))
    ∧ (cfgF.enabled = true ∧ ("rm x".toList : Str) ≠ []
      ∧ isSafeCommand (trim ("rm x".toList)) = true
      ∧ isForbiddenCommand (trim ("rm x".toList)) cfgF.forbiddenCommands = true
      ∧ executeCommand cfgF oracle0 0 (initialState cfgF) ("rm x".toList)
          (some ("s1".toList))
        = (forbiddenResult (initialState cfgF).currentDirectory, initialState cfgF)) :=
  ⟨⟨by decide, by decide, by decide,
    (claim3_rejections_leave_state_unchanged cfgA oracle0 0 (initialState cfgA)
      ("ls | grep x | wc -l".toList) (some ("s1".toList))).1
      (by decide) (by decide) (by decide)⟩,
   ⟨by decide, by decide, by decide, by decide,
    (claim3_rejections_leave_state_unchanged cfgF oracle0 0 (initialState cfgF)
      ("rm x".toList) (some ("s1".toList))).2
      (by decide) (by decide) (by decide) (by decide)⟩⟩

/-- Claim C4 (counterexample): the claim says a single-word deny entry
never matches as a raw string prefix of a longer token, so that
`isForbidden("rmdir x", ["rm"])` is false; the code's first check is a
raw `startsWith`, which makes it true. -/
theorem claim4_rmdir_forbidden_by_rm_cx :
    isForbiddenCommand ("rmdir x".toList) [("rm".toList)] = true := by
  decide

/-- Claim C4 (amended): the matcher is case-insensitive —
`isForbidden("rm -rf /", ["rm -rf /"])` and
`isForbidden("RM -RF /", ["rm -rf /"])` are true — but a deny entry
matches whenever the lower-cased trimmed command starts with it as a raw
string prefix, so `isForbidden("rmdir x", ["rm"])` is also true: the
exact-first-token rule for single-word entries is an additional check,
not a restriction. -/
theorem claim4_forbidden_matcher_amended :
    isForbiddenCommand ("rm -rf /".toList) [("rm -rf /".toList)] = true
    ∧ isForbiddenCommand ("RM -RF /".toList) [("rm -rf /".toList)] = true
    ∧ isForbiddenCommand ("rmdir x".toList) [("rm".toList)] = true := by
  decide

/-- Claim C5: the claim says a trimmed command that is exactly `cd`
resets the cursor to the allowed root and succeeds without spawning.
The dispatch guard is `startsWith('cd ')`, which `cd` fails, so the
command goes to `runCommand` (spawning the program `cd` with no
arguments) and the cursor is left unchanged, for every oracle and
state. -/
theorem claim5_bare_cd_spawns :
    (∀ (oracle : Str → Str → CommandResult) (now : Nat) (st : ShellState)
        (sid : Option Str),
      (executeCommand cfgA oracle now st ("cd".toList) sid).1
          = oracle ("cd".toList) st.currentDirectory
        ∧ (executeCommand cfgA oracle now st ("cd".toList) sid).2.currentDirectory
          = st.currentDirectory)
    ∧ runCommandSpawnSpec ("cd".toList) = (("cd".toList), [], false) := by
  refine ⟨fun oracle now st sid => ?_, by decide⟩
  have htrim : trim ("cd".toList) = ("cd".toList) := by decide
  have hsafe : isSafeCommand ("cd".toList) = true := by decide
  have hforb : isForbiddenCommand ("cd".toList) cfgA.forbiddenCommands = false := by decide
  have hcd : (['c', 'd', ' ']).isPrefixOf ("cd".toList) = false := by decide
  have hempty : ("cd".toList).isEmpty = false := by decide
  have hena : (!cfgA.enabled) = false := by decide
  simp only [executeCommand, htrim, hsafe, hforb, hcd, hempty, hena, Bool.not_true,
    Bool.false_eq_true, if_false, ite_false, ite_true]
  refine ⟨?_, ?_⟩ <;> (split <;> rfl)

/-- Claim C6 (counterexample): the claim says the spawn-failure result
has no exit code; the `error` handler of `runCommand` resolves with
`exitCode: 1`, so the exit code is present. -/
theorem claim6_spawn_failure_exitcode_cx :
    (runCommandOnError [] ("spawn foo ENOENT".toList) ("/allowed".toList)).exitCode
        = some 1
    ∧ (runCommandOnError [] ("spawn foo ENOENT".toList) ("/allowed".toList)).exitCode
        ≠ none
    ∧ (runCommandOnError [] ("spawn foo ENOENT".toList) ("/allowed".toList)).success
        = false := by
  decide

/-- Claim C6 (amended): on spawn failure the result has `success =
false`, its `exitCode` is `1` (present, not absent), and stderr carries
the underlying OS error text. -/
theorem claim6_spawn_failure_amended
    (stdoutSoFar errMessage currentDirectory : Str) :
    (runCommandOnError stdoutSoFar errMessage currentDirectory).success = false
    ∧ (runCommandOnError stdoutSoFar errMessage currentDirectory).exitCode = some 1
    ∧ (runCommandOnError stdoutSoFar errMessage currentDirectory).stderr = errMessage :=
  ⟨rfl, rfl, rfl⟩

/-- Claim C7: the claim (and the file-operation table of the spec) says
a command whose first token is `rm` with a path argument yields a delete
`FileOperation`; `detectFileOperations` has no `rm` branch at all, so no
operation is inferred for `rm file.txt`. -/
theorem claim7_rm_no_delete_detected :
    detectFileOperations ("rm file.txt".toList) ("/sandbox".toList) = none
    ∧ detectFileOperations ("rm -rf subdir".toList) ("/sandbox".toList) = none := by
  decide

/-- Claim C8 (counterexample): the claim says `cd ..` issued at the
allowed root does not produce an error result; in the code
`validatePath` rejects the parent of the root, so the result is a
failure carrying `Permission denied` (the cursor does stay at the
root). -/
theorem claim8_cd_dotdot_at_root_errors_cx :
    (executeCommand cfgA oracle0 0 (initialState cfgA) ("cd ..".toList)
        (some ("s1".toList))).1.success = false
    ∧ (executeCommand cfgA oracle0 0 (initialState cfgA) ("cd ..".toList)
        (some ("s1".toList))).1.error = some ("Permission denied".toList)
    ∧ (executeCommand cfgA oracle0 0 (initialState cfgA) ("cd ..".toList)
        (some ("s1".toList))).2.currentDirectory = "/allowed".toList := by
  decide

/-! ### Pipe-count lemmas (claim C9) -/

/-- A successful `\s*` + literal-`|` scan implies a pipe in the scanned
suffix. -/
theorem wsThenPipe_mem : ∀ s : Str, wsThenLit ['|'] s = true → '|' ∈ s := by
  intro s
  induction s with
  | nil => simp [wsThenLit, List.isEmpty]
  | cons c t ih =>
    simp only [wsThenLit]
    by_cases h : isWs c = true
    · rw [if_pos h]
      intro hw
      exact List.mem_cons_of_mem _ (ih hw)
    · rw [if_neg h]
      intro hp
      have hc : c = '|' := by
        cases hcc : (('|' : Char) == c) with
        | true => exact (beq_iff_eq.mp hcc).symm
        | false => simp [List.isPrefixOf, hcc] at hp
      exact hc ▸ List.mem_cons_self c t

/-- A match of the regex `/\|\s*\|/` forces at least two `|` characters
in the string. -/
theorem charWsLit_pipePipe_count :
    ∀ s : Str, charWsLit '|' ['|'] s = true → 2 ≤ s.count '|' := by
  intro s
  induction s with
  | nil => simp [charWsLit]
  | cons c t ih =>
    simp only [charWsLit, Bool.or_eq_true, Bool.and_eq_true, decide_eq_true_eq]
    rintro (⟨hc, hws⟩ | hrec)
    · have h1 : 1 ≤ t.count '|' := List.count_pos_iff.mpr (wsThenPipe_mem t hws)
      rw [hc, List.count_cons_self]
      omega
    · have := ih hrec
      rw [List.count_cons]
      omega

/-- Claim C9: a command with two or more `|` characters is always
rejected by `isSafeCommand`; a command with exactly one `|` on which
none of the other dangerous patterns fires — no traversal pattern, no
`$(`, no backtick substitution, no `|`/`;` followed by `sudo`, no
`&&`-pattern — is accepted. -/
theorem claim9_pipe_count_safety :
    (∀ command : Str, 2 ≤ command.count '|' → isSafeCommand command = false)
    ∧ (∀ command : Str, command.count '|' = 1 →
        isSubstring ['.', '.', '/'] command = false →
        isSubstring ['.', '.', '\\'] command = false →
        isSubstring ['/', '.', '.'] command = false →
        isSubstring ['\\', '.', '.'] command = false →
        isSubstring ['$', '('] command = false →
        backtickFind command = false →
        charWsLit '|' ['s', 'u', 'd', 'o'] command = false →
        charWsLit ';' ['s', 'u', 'd', 'o'] command = false →
        charWsLit '&' ['&'] command = false →
        isSafeCommand command = true) := by
  constructor
  · intro command hcount
    have h2 : 1 < command.count '|' := by omega
    simp only [isSafeCommand, h2]
    split
    · rfl
    · split
      · rfl
      · rw [if_pos]
        decide
  · intro command hcount h1 h2 h3 h4 h5 h6 h7 h8 h9
    have hpp : charWsLit '|' ['|'] command = false := by
      cases hq : charWsLit '|' ['|'] command with
      | false => rfl
      | true =>
        have := charWsLit_pipePipe_count command hq
        omega
    have hlt : (1 < command.count '|') = False := by
      simp [hcount]
    simp [isSafeCommand, h1, h2, h3, h4, h5, h6, h7, h8, h9, hpp, hlt]

/-- Claim C9 (witness): `ls | grep test | wc -l` has two pipes and is
rejected; `ls | grep x` has one pipe, no other dangerous pattern, and is
accepted. -/
theorem claim9_pipe_count_witness :
    2 ≤ ("ls | grep test | wc -l".toList).count '|'
    ∧ isSafeCommand ("ls | grep test | wc -l".toList) = false
    ∧ ("ls | grep x".toList).count '|' = 1
    ∧ isSafeCommand ("ls | grep x".toList) = true :=
  ⟨by decide,
   claim9_pipe_count_safety.1 ("ls | grep test | wc -l".toList) (by decide),
   by decide,
   claim9_pipe_count_safety.2 ("ls | grep x".toList) (by decide) (by decide) (by decide)
     (by decide) (by decide) (by decide) (by decide) (by decide) (by decide) (by decide)⟩

/-! ### History-bounding lemmas (claim C10) -/

/-- Appending below the bound is a plain push. -/
theorem pushTrim_of_le (h : List CommandHistoryEntry) (e : CommandHistoryEntry)
    (hle : h.length + 1 ≤ 100) : pushTrim h e = h ++ [e] := by
  unfold pushTrim maxHistoryPerConversation
  rw [if_neg]
  simp only [List.length_append, List.length_cons, List.length_nil]
  omega

/-- Folding appends over a history that stays within the bound just
concatenates. -/
theorem foldl_pushTrim_of_le :
    ∀ (es : List CommandHistoryEntry) (h : List CommandHistoryEntry),
      h.length + es.length ≤ 100 → es.foldl pushTrim h = h ++ es := by
  intro es
  induction es with
  | nil => intro h _; simp
  | cons e es ih =>
    intro h hle
    simp only [List.length_cons] at hle
    rw [List.foldl_cons, pushTrim_of_le h e (by omega), ih (h ++ [e]) (by simp; omega)]
    simp

/-- Folding appends over a full history slides the window: each append
drops the oldest entry. -/
theorem foldl_pushTrim_of_full :
    ∀ (es : List CommandHistoryEntry) (h : List CommandHistoryEntry),
      h.length = 100 → es.foldl pushTrim h = (h ++ es).drop es.length := by
  intro es
  induction es with
  | nil => intro h _; simp
  | cons e es ih =>
    intro h hfull
    obtain ⟨a, h2, rfl⟩ : ∃ a h2, h = a :: h2 := by
      cases h with
      | nil => simp at hfull
      | cons a h2 => exact ⟨a, h2, rfl⟩
    have hlen : h2.length = 99 := by
      simp only [List.length_cons] at hfull
      omega
    have hstep : pushTrim (a :: h2) e = h2 ++ [e] := by
      unfold pushTrim maxHistoryPerConversation
      rw [if_pos]
      · simp
      · simp only [List.length_append, List.length_cons, List.length_nil]
        omega
    have htail : (h2 ++ [e]).length = 100 := by
      simp [hlen]
    rw [List.foldl_cons, hstep, ih _ htail]
    have hassoc : (h2 ++ [e]) ++ es = h2 ++ e :: es := by simp
    rw [hassoc, List.length_cons, List.cons_append, List.drop_succ_cons]

/-- Claim C10: folding 110 appends into one session from an empty list
leaves exactly the chronologically last 100 entries (the 10 oldest
dropped from the front), and an append for one session never changes the
history of any other key. -/
theorem claim10_history_bounded :
    (∀ (reqs : List (Str × CommandResult × Option (List FileOperation) × Nat))
        (sid : Str) (hist : Str → List CommandHistoryEntry),
      reqs.length = 110 → sid ≠ [] → hist sid = [] →
      ((reqs.foldl (fun h r => addToHistory h (some sid) r.1 r.2.1 r.2.2.1 r.2.2.2) hist) sid).length
          = 100
        ∧ (reqs.foldl (fun h r => addToHistory h (some sid) r.1 r.2.1 r.2.2.1 r.2.2.2) hist) sid
          = (reqs.map (fun r => mkHistoryEntry r.1 r.2.1 r.2.2.1 r.2.2.2)).drop 10)
    ∧ (∀ (hist : Str → List CommandHistoryEntry) (cid : Str) (c : Str)
        (r : CommandResult) (f : Option (List FileOperation)) (n : Nat) (k : Str),
      k ≠ cid → addToHistory hist (some cid) c r f n k = hist k) := by
  have hother : ∀ (hist : Str → List CommandHistoryEntry) (cid : Str) (c : Str)
      (r : CommandResult) (f : Option (List FileOperation)) (n : Nat) (k : Str),
      k ≠ cid → addToHistory hist (some cid) c r f n k = hist k := by
    intro hist cid c r f n k hk
    unfold addToHistory
    by_cases hc : cid.isEmpty
    · simp [hc]
    · simp [hc, hk]
  refine ⟨?_, hother⟩
  have happly : ∀ (sid : Str), sid ≠ [] →
      ∀ (reqs : List (Str × CommandResult × Option (List FileOperation) × Nat))
        (hist : Str → List CommandHistoryEntry),
      (reqs.foldl (fun h r => addToHistory h (some sid) r.1 r.2.1 r.2.2.1 r.2.2.2) hist) sid
        = (reqs.map (fun r => mkHistoryEntry r.1 r.2.1 r.2.2.1 r.2.2.2)).foldl pushTrim (hist sid) := by
    intro sid hsid reqs
    induction reqs with
    | nil => intro hist; rfl
    | cons r rs ih =>
      intro hist
      have hemp : sid.isEmpty = false := by
        cases sid with
        | nil => exact absurd rfl hsid
        | cons a t => rfl
      have hone : addToHistory hist (some sid) r.1 r.2.1 r.2.2.1 r.2.2.2 sid
          = pushTrim (hist sid) (mkHistoryEntry r.1 r.2.1 r.2.2.1 r.2.2.2) := by
        unfold addToHistory
        simp [hemp]
      rw [List.foldl_cons, List.map_cons, List.foldl_cons, ih, hone]
  intro reqs sid hist hlen hsid hempty
  rw [happly sid hsid reqs hist, hempty]
  set es := reqs.map (fun r => mkHistoryEntry r.1 r.2.1 r.2.2.1 r.2.2.2) with hes
  have heslen : es.length = 110 := by rw [hes, List.length_map, hlen]
  have htake : (es.take 100).length = 100 := by rw [List.length_take]; omega
  have hdrop : (es.drop 100).length = 10 := by rw [List.length_drop]; omega
  have hmain : es.foldl pushTrim [] = es.drop 10 := by
    conv_lhs => rw [← List.take_append_drop 100 es]
    rw [List.foldl_append, foldl_pushTrim_of_le (es.take 100) [] (by simp [htake]),
      List.nil_append, foldl_pushTrim_of_full (es.drop 100) (es.take 100) htake,
      List.take_append_drop, hdrop]
  rw [hmain]
  constructor
  · rw [List.length_drop]; omega
  · rfl

/-- A fixed request record used by the claim C10 witness. -/
def req0 : Str × CommandResult × Option (List FileOperation) × Nat :=
  (("ls".toList), oracle0 ("ls".toList) ("/allowed".toList), none, 0)

/-- The empty history map used by the claim C10 witness. -/
def hist0 : Str → List CommandHistoryEntry := fun _ => []

/-- Claim C10 (witness): 110 identical appends to session `s1` of the
empty map leave 100 entries (the first 10 dropped), and an append keyed
`s1` leaves session `s2` untouched. -/
theorem claim10_history_bounded_witness :
    ((List.replicate 110 req0).length = 110 ∧ ("s1".toList : Str) ≠ [] ∧ hist0 ("s1".toList) = []
      ∧ (((List.replicate 110 req0).foldl
            (fun h r => addToHistory h (some ("s1".toList)) r.1 r.2.1 r.2.2.1 r.2.2.2) hist0)
          ("s1".toList)).length = 100
      ∧ ((List.replicate 110 req0).foldl
            (fun h r => addToHistory h (some ("s1".toList)) r.1 r.2.1 r.2.2.1 r.2.2.2) hist0)
          ("s1".toList)
        = ((List.replicate 110 req0).map (fun r => mkHistoryEntry r.1 r.2.1 r.2.2.1 r.2.2.2)).drop 10)
    ∧ (("s2".toList : Str) ≠ ("s1".toList : Str)
      ∧ addToHistory hist0 (some ("s1".toList)) req0.1 req0.2.1 req0.2.2.1 req0.2.2.2 ("s2".toList)
        = hist0 ("s2".toList)) := by
  have h1 : (List.replicate 110 req0).length = 110 := by simp
  have h2 : ("s1".toList : Str) ≠ [] := by decide
  have h3 : hist0 ("s1".toList) = [] := rfl
  have hmain := (claim10_history_bounded.1) (List.replicate 110 req0) ("s1".toList) hist0 h1 h2 h3
  have hother := (claim10_history_bounded.2) hist0 ("s1".toList) req0.1 req0.2.1 req0.2.2.1
    req0.2.2.2 ("s2".toList) (by decide)
  exact ⟨⟨h1, h2, h3, hmain.1, hmain.2⟩, ⟨by decide, hother⟩⟩

/-! ### Round-trip lemmas (claim C8) -/

/-- An ordinary file-name character: not whitespace and none of the
separator, dot or shell metacharacters the classifiers inspect. -/
def isPlainChar (c : Char) : Bool :=
  !isWs c && !(c = '/') && !(c = '\\') && !(c = '.') && !(c = '|') && !(c = '&')
    && !(c = ';') && !(c = '$') && !(c = '<') && !(c = '>')
    && !(c = quoteChar) && !(c = backtickChar)

/-- Unpacking `isPlainChar`. -/
theorem plainChar_spec (c : Char) (h : isPlainChar c = true) :
    isWs c = false ∧ c ≠ '/' ∧ c ≠ '\\' ∧ c ≠ '.' ∧ c ≠ '|' ∧ c ≠ '&' ∧ c ≠ ';'
      ∧ c ≠ '$' ∧ c ≠ '<' ∧ c ≠ '>' ∧ c ≠ quoteChar ∧ c ≠ backtickChar := by
  simp only [isPlainChar, Bool.and_eq_true, Bool.not_eq_true', decide_eq_false_iff_not] at h
  tauto

/-- `List.isPrefixOf` implies membership transfer. -/
theorem prefixOf_subset :
    ∀ (l₁ l₂ : Str), l₁.isPrefixOf l₂ = true → ∀ x ∈ l₁, x ∈ l₂ := by
  intro l₁
  induction l₁ with
  | nil => intro l₂ _ x hx; simp at hx
  | cons a t ih =>
    intro l₂ hp x hx
    cases l₂ with
    | nil => simp [List.isPrefixOf] at hp
    | cons b t₂ =>
      simp only [List.isPrefixOf, Bool.and_eq_true, beq_iff_eq] at hp
      rcases List.mem_cons.mp hx with hxa | hxt
      · exact hxa ▸ hp.1 ▸ List.mem_cons_self b t₂
      · exact List.mem_cons_of_mem b (ih t₂ hp.2 x hxt)

/-- A found substring transfers its characters into the string. -/
theorem isSubstring_subset :
    ∀ (pat s : Str), isSubstring pat s = true → ∀ x ∈ pat, x ∈ s := by
  intro pat s
  induction s with
  | nil =>
    intro h x hx
    simp only [isSubstring, List.isEmpty_iff] at h
    simp [h] at hx
  | cons c t ih =>
    simp only [isSubstring, Bool.or_eq_true]
    rintro (hp | hrec) x hx
    · exact prefixOf_subset pat (c :: t) hp x hx
    · exact List.mem_cons_of_mem c (ih hrec x hx)

/-- A backtick-substitution match requires a backtick character. -/
theorem backtickScan_mem :
    ∀ s : Str, (backtickOpen s = true → backtickChar ∈ s)
      ∧ (backtickFind s = true → backtickChar ∈ s) := by
  intro s
  induction s with
  | nil => simp [backtickOpen, backtickFind]
  | cons c t ih =>
    constructor
    · simp only [backtickOpen]
      by_cases hb : c = backtickChar
      · intro _; exact hb ▸ List.mem_cons_self c t
      · rw [if_neg hb]
        by_cases hq : c = quoteChar
        · rw [if_pos hq]; intro h; exact List.mem_cons_of_mem c (ih.2 h)
        · rw [if_neg hq]; intro h; exact List.mem_cons_of_mem c (ih.1 h)
    · simp only [backtickFind]
      by_cases hb : c = backtickChar
      · intro _; exact hb ▸ List.mem_cons_self c t
      · rw [if_neg hb]; intro h; exact List.mem_cons_of_mem c (ih.2 h)

/-- A `X\s*LIT` match requires the character `X`. -/
theorem charWsLit_mem :
    ∀ (a : Char) (lit : Str) (s : Str), charWsLit a lit s = true → a ∈ s := by
  intro a lit s
  induction s with
  | nil => simp [charWsLit]
  | cons c t ih =>
    simp only [charWsLit, Bool.or_eq_true, Bool.and_eq_true, decide_eq_true_eq]
    rintro (⟨hc, _⟩ | hrec)
    · exact hc ▸ List.mem_cons_self c t
    · exact List.mem_cons_of_mem c (ih hrec)

/-- A string containing no dot, dollar, backtick, pipe, semicolon or
ampersand passes `isSafeCommand`: every pattern the classifier looks for
needs one of those characters. -/
theorem isSafe_of_noSpecial (s : Str) (hdot : '.' ∉ s) (hdollar : '$' ∉ s)
    (hbt : backtickChar ∉ s) (hpipe : '|' ∉ s) (hsemi : ';' ∉ s) (hamp : '&' ∉ s) :
    isSafeCommand s = true := by
  have hsub : ∀ (pat : Str), '.' ∈ pat → isSubstring pat s = false := by
    intro pat hp
    cases h : isSubstring pat s with
    | false => rfl
    | true => exact absurd (isSubstring_subset pat s h '.' hp) hdot
  have hsubd : ∀ (pat : Str), '$' ∈ pat → isSubstring pat s = false := by
    intro pat hp
    cases h : isSubstring pat s with
    | false => rfl
    | true => exact absurd (isSubstring_subset pat s h '$' hp) hdollar
  have hbtf : backtickFind s = false := by
    cases h : backtickFind s with
    | false => rfl
    | true => exact absurd ((backtickScan_mem s).2 h) hbt
  have hcw : ∀ (a : Char) (lit : Str), a ∉ s → charWsLit a lit s = false := by
    intro a lit ha
    cases h : charWsLit a lit s with
    | false => rfl
    | true => exact absurd (charWsLit_mem a lit s h) ha
  have hcount : s.count '|' = 0 := List.count_eq_zero.mpr hpipe
  have h1 := hsub ['.', '.', '/'] (by decide)
  have h2 := hsub ['.', '.', '\\'] (by decide)
  have h3 := hsub ['/', '.', '.'] (by decide)
  have h4 := hsub ['\\', '.', '.'] (by decide)
  have h5 := hsubd ['$', '('] (by decide)
  simp [isSafeCommand, h1, h2, h3, h4, h5, hbtf,
    hcw '|' ['s', 'u', 'd', 'o'] hpipe, hcw ';' ['s', 'u', 'd', 'o'] hsemi,
    hcw '&' ['&'] hamp, hcw '|' ['|'] hpipe, hcount]

/-- Trimming `cd <name>` is the identity when the name is nonempty and
whitespace-free. -/
theorem trim_cd_append (sub : Str) (hne : sub ≠ []) (hnws : ∀ c ∈ sub, isWs c = false) :
    trim (['c', 'd', ' '] ++ sub) = ['c', 'd', ' '] ++ sub := by
  unfold trim
  rw [show (['c', 'd', ' '] ++ sub : Str) = 'c' :: ('d' :: ' ' :: sub) from rfl]
  rw [List.dropWhile_cons_of_neg (by decide)]
  obtain ⟨y, ys, hrev⟩ : ∃ y ys, sub.reverse = y :: ys := by
    cases hr : sub.reverse with
    | nil => exact absurd (List.reverse_eq_nil_iff.mp hr) hne
    | cons y ys => exact ⟨y, ys, rfl⟩
  have hy : y ∈ sub := List.mem_reverse.mp (hrev ▸ List.mem_cons_self y ys)
  rw [show ('c' :: 'd' :: ' ' :: sub : Str).reverse = sub.reverse ++ [' ', 'd', 'c'] from by
    simp]
  rw [hrev, List.cons_append, List.dropWhile_cons_of_neg (by simp [hnws y hy])]
  rw [← List.cons_append, ← hrev]
  simp

/-- `split(/\s+/)` of a whitespace-free string is one piece. -/
theorem splitWs_of_nonWs :
    ∀ s : Str, (∀ c ∈ s, isWs c = false) → splitWs s = [s] := by
  intro s
  induction s with
  | nil => intro _; rfl
  | cons c t ih =>
    intro h
    have hc : isWs c = false := h c (List.mem_cons_self c t)
    simp only [splitWs, hc, Bool.false_eq_true, if_false]
    rw [ih (fun x hx => h x (List.mem_cons_of_mem c hx))]
    rfl

/-- As `splitWs_of_nonWs`, for the run-skipping helper on a nonempty
string. -/
theorem splitWsSkip_of_nonWs (s : Str) (hne : s ≠ []) (h : ∀ c ∈ s, isWs c = false) :
    splitWsSkip s = [s] := by
  cases s with
  | nil => exact absurd rfl hne
  | cons c t =>
    have hc : isWs c = false := h c (List.mem_cons_self c t)
    simp only [splitWsSkip, hc, Bool.false_eq_true, if_false]
    rw [splitWs_of_nonWs t (fun x hx => h x (List.mem_cons_of_mem c hx))]
    rfl

/-- `cd <name>` splits into the two tokens `cd` and `<name>`. -/
theorem splitWs_cd_append (sub : Str) (hne : sub ≠ []) (hnws : ∀ c ∈ sub, isWs c = false) :
    splitWs (['c', 'd', ' '] ++ sub) = [['c', 'd'], sub] := by
  rw [show (['c', 'd', ' '] ++ sub : Str) = 'c' :: ('d' :: (' ' :: sub)) from rfl]
  have hc : isWs 'c' = false := by decide
  have hd : isWs 'd' = false := by decide
  have hsp : isWs ' ' = true := by decide
  simp only [splitWs, hc, hd, hsp, Bool.false_eq_true, if_false, if_true]
  rw [splitWsSkip_of_nonWs sub hne hnws]
  rfl

/-- Splitting a slash-free string at `/` is one piece. -/
theorem splitSlash_of_noSlash :
    ∀ s : Str, '/' ∉ s → splitSlash s = [s] := by
  intro s
  induction s with
  | nil => intro _; rfl
  | cons c t ih =>
    intro h
    have hc : ¬(c = '/') := fun he => h (he ▸ List.mem_cons_self c t)
    simp only [splitSlash, hc, decide_False, Bool.false_eq_true, if_false]
    rw [ih (fun hx => h (List.mem_cons_of_mem c hx))]
    rfl

/-- Splitting `xs ++ '/' :: r` at `/` peels off the slash-free `xs`. -/
theorem splitSlash_append (xs r : Str) (h : '/' ∉ xs) :
    splitSlash (xs ++ '/' :: r) = xs :: splitSlash r := by
  induction xs with
  | nil => simp [splitSlash]
  | cons c t ih =>
    have hc : ¬(c = '/') := fun he => h (he ▸ List.mem_cons_self c t)
    rw [List.cons_append]
    simp only [splitSlash, hc, decide_False, Bool.false_eq_true, if_false]
    rw [ih (fun hx => h (List.mem_cons_of_mem c hx))]
    rfl

/-- A list is a `isPrefixOf`-prefix of itself extended by anything. -/
theorem prefixOf_append : ∀ (l r : Str), l.isPrefixOf (l ++ r) = true := by
  intro l r
  induction l with
  | nil => cases r <;> rfl
  | cons a t ih => simp [List.isPrefixOf, ih]

/-- One unfolding step of `splitSlash` at a separator. -/
theorem splitSlash_cons_slash (t : Str) : splitSlash ('/' :: t) = [] :: splitSlash t := by
  simp [splitSlash]

/-- Resolving `/allowed/<name>` is the identity for a clean name. -/
theorem resolveAbs_allowed (sub : Str) (hne : sub ≠ []) (hsl : '/' ∉ sub)
    (hdot : '.' ∉ sub) :
    resolveAbs ("/allowed".toList ++ '/' :: sub) = "/allowed".toList ++ '/' :: sub := by
  have hd1 : sub ≠ ['.'] := fun he => hdot (by rw [he]; exact List.mem_cons_self _ _)
  have hd2 : sub ≠ ['.', '.'] := fun he => hdot (by rw [he]; exact List.mem_cons_self _ _)
  have hsplit : splitSlash ("/allowed".toList ++ '/' :: sub)
      = [[], "allowed".toList, sub] := by
    rw [show ("/allowed".toList ++ '/' :: sub : Str)
        = '/' :: ("allowed".toList ++ '/' :: sub) from rfl]
    rw [splitSlash_cons_slash, splitSlash_append _ _ (by decide),
      splitSlash_of_noSlash sub hsl]
  have e1 : stepAbs [] [] = ([] : List Str) := by decide
  have e2 : stepAbs [] ("allowed".toList) = [("allowed".toList)] := by decide
  have e3 : stepAbs [("allowed".toList)] sub = [sub, ("allowed".toList)] := by
    simp [stepAbs, hne, hd1, hd2]
  unfold resolveAbs renderAbs
  rw [hsplit]
  simp only [List.foldl_cons, List.foldl_nil]
  rw [e1, e2, e3]
  rfl

/-- Normalizing `/allowed/<name>` is the identity for a clean name. -/
theorem pathNormalize_allowed (sub : Str) (hne : sub ≠ []) (hsl : '/' ∉ sub)
    (hdot : '.' ∉ sub) :
    pathNormalize ("/allowed".toList ++ '/' :: sub) = "/allowed".toList ++ '/' :: sub := by
  have hd1 : sub ≠ ['.'] := fun he => hdot (by rw [he]; exact List.mem_cons_self _ _)
  have hd2 : sub ≠ ['.', '.'] := fun he => hdot (by rw [he]; exact List.mem_cons_self _ _)
  have hsplit : splitSlash ("/allowed".toList ++ '/' :: sub)
      = [[], "allowed".toList, sub] := by
    rw [show ("/allowed".toList ++ '/' :: sub : Str)
        = '/' :: ("allowed".toList ++ '/' :: sub) from rfl]
    rw [splitSlash_cons_slash, splitSlash_append _ _ (by decide),
      splitSlash_of_noSlash sub hsl]
  have hnnil : ("/allowed".toList ++ '/' :: sub : Str) ≠ [] := by
    rw [show ("/allowed".toList ++ '/' :: sub : Str)
        = '/' :: ("allowed".toList ++ '/' :: sub) from rfl]
    exact List.cons_ne_nil _ _
  have habs : isAbsolute ("/allowed".toList ++ '/' :: sub) = true := by
    rw [show ("/allowed".toList ++ '/' :: sub : Str)
        = '/' :: ("allowed".toList ++ '/' :: sub) from rfl]
    simp [isAbsolute]
  have htrail : ((("/allowed".toList ++ '/' :: sub : Str)).getLast? == some '/') = false := by
    rw [show ("/allowed".toList ++ '/' :: sub : Str)
        = ("/allowed".toList ++ ['/']) ++ sub from by simp]
    rw [List.getLast?_append_of_ne_nil _ hne]
    rw [List.getLast?_eq_getLast_of_ne_nil hne]
    have hmem : sub.getLast hne ∈ sub := List.getLast_mem hne
    have hlast : sub.getLast hne ≠ '/' := fun he => hsl (he ▸ hmem)
    simp [hlast]
  have f1 : stepNorm true [] [] = ([] : List Str) := by decide
  have f2 : stepNorm true [] ("allowed".toList) = [("allowed".toList)] := by decide
  have f3 : stepNorm true [("allowed".toList)] sub = [sub, ("allowed".toList)] := by
    simp [stepNorm, hne, hd1, hd2]
  have hbody : joinSegs (((splitSlash ("/allowed".toList ++ '/' :: sub)).foldl
        (stepNorm true) []).reverse) = ("allowed".toList) ++ '/' :: sub := by
    rw [hsplit]
    simp only [List.foldl_cons, List.foldl_nil]
    rw [f1, f2, f3]
    rfl
  have hbodyne : (("allowed".toList) ++ '/' :: sub : Str) ≠ [] := by
    rw [show (("allowed".toList) ++ '/' :: sub : Str)
        = 'a' :: ("llowed".toList ++ '/' :: sub) from rfl]
    exact List.cons_ne_nil _ _
  unfold pathNormalize
  rw [if_neg (by exact hnnil)]
  simp only [habs, htrail, hbody, if_true, if_false, Bool.false_eq_true, ite_false, ite_true]
  rw [if_neg hbodyne]
  rfl

/-- `validatePath` accepts a clean relative name from the root of the
`/allowed` sandbox and yields `/allowed/<name>`. -/
theorem validatePath_sub (sub : Str) (hne : sub ≠ []) (hsl : '/' ∉ sub)
    (hdot : '.' ∉ sub) :
    validatePath sub ("/allowed".toList) ("/allowed".toList)
      = some ("/allowed".toList ++ '/' :: sub) := by
  have habs : isAbsolute sub = false := by
    cases sub with
    | nil => exact absurd rfl hne
    | cons y ys =>
      have hy : ¬(y = '/') := fun he => hsl (he ▸ List.mem_cons_self y ys)
      simp [isAbsolute, hy]
  unfold validatePath pathResolve
  rw [habs]
  simp only [Bool.false_eq_true, if_false]
  rw [resolveAbs_allowed sub hne hsl hdot, pathNormalize_allowed sub hne hsl hdot]
  rw [show pathNormalize ("/allowed".toList) = "/allowed".toList from by decide]
  rw [if_pos (prefixOf_append ("/allowed".toList) ('/' :: sub))]

/-- `validatePath` maps `..` back to `/allowed` from `/allowed/<name>`. -/
theorem validatePath_dotdot (sub : Str) (hne : sub ≠ []) (hsl : '/' ∉ sub)
    (hdot : '.' ∉ sub) :
    validatePath ['.', '.'] ("/allowed".toList) ("/allowed".toList ++ '/' :: sub)
      = some ("/allowed".toList) := by
  have hd1 : sub ≠ ['.'] := fun he => hdot (by rw [he]; exact List.mem_cons_self _ _)
  have hd2 : sub ≠ ['.', '.'] := fun he => hdot (by rw [he]; exact List.mem_cons_self _ _)
  have hsplit : splitSlash (("/allowed".toList ++ '/' :: sub) ++ '/' :: ['.', '.'])
      = [[], "allowed".toList, sub, ['.', '.']] := by
    rw [show (("/allowed".toList ++ '/' :: sub) ++ '/' :: ['.', '.'] : Str)
        = '/' :: ("allowed".toList ++ '/' :: (sub ++ '/' :: ['.', '.'])) from by simp]
    rw [splitSlash_cons_slash, splitSlash_append _ _ (by decide),
      splitSlash_append sub _ hsl]
    rw [show splitSlash ['.', '.'] = [['.', '.']] from by decide]
  have e1 : stepAbs [] [] = ([] : List Str) := by decide
  have e2 : stepAbs [] ("allowed".toList) = [("allowed".toList)] := by decide
  have e3 : stepAbs [("allowed".toList)] sub = [sub, ("allowed".toList)] := by
    simp [stepAbs, hne, hd1, hd2]
  have e4 : stepAbs [sub, ("allowed".toList)] ['.', '.'] = [("allowed".toList)] := by
    simp [stepAbs]
  have hres : resolveAbs (("/allowed".toList ++ '/' :: sub) ++ '/' :: ['.', '.'])
      = "/allowed".toList := by
    unfold resolveAbs renderAbs
    rw [hsplit]
    simp only [List.foldl_cons, List.foldl_nil]
    rw [e1, e2, e3, e4]
    rfl
  unfold validatePath pathResolve
  rw [show isAbsolute ['.', '.'] = false from by decide]
  simp only [Bool.false_eq_true, if_false]
  rw [hres]
  rw [show pathNormalize ("/allowed".toList) = "/allowed".toList from by decide]
  rw [if_pos (by decide)]

/-- `handleCdCommand` on `cd <name>` from the sandbox root moves the
cursor to `/allowed/<name>` with a success result. -/
theorem handleCd_sub (sub : Str) (hne : sub ≠ []) (hnws : ∀ c ∈ sub, isWs c = false)
    (hsl : '/' ∉ sub) (hdot : '.' ∉ sub) :
    handleCdCommand cfgA (['c', 'd', ' '] ++ sub) ("/allowed".toList)
      = ({ success := true
           stdout := ("Changed directory to: ".toList) ++ ("/allowed".toList ++ '/' :: sub)
           stderr := []
           exitCode := some 0
           executedIn := "/allowed".toList ++ '/' :: sub },
         "/allowed".toList ++ '/' :: sub) := by
  unfold handleCdCommand
  rw [splitWs_cd_append sub hne hnws]
  rw [if_neg (by simp)]
  have htarget : joinWith ' ' ([[ 'c', 'd'], sub].drop 1) = sub := rfl
  rw [htarget]
  rw [show cfgA.allowedDirectory = "/allowed".toList from rfl]
  rw [validatePath_sub sub hne hsl hdot]

/-- `handleCdCommand` on `cd ..` from `/allowed/<name>` moves the cursor
back to the root with a success result. -/
theorem handleCd_dotdot (sub : Str) (hne : sub ≠ []) (hsl : '/' ∉ sub)
    (hdot : '.' ∉ sub) :
    handleCdCommand cfgA ("cd ..".toList) ("/allowed".toList ++ '/' :: sub)
      = ({ success := true
           stdout := ("Changed directory to: ".toList) ++ "/allowed".toList
           stderr := []
           exitCode := some 0
           executedIn := "/allowed".toList },
         "/allowed".toList) := by
  unfold handleCdCommand
  rw [show splitWs ("cd ..".toList) = [['c', 'd'], ['.', '.']] from by decide]
  rw [if_neg (by simp)]
  have htarget : joinWith ' ' ([[ 'c', 'd'], ['.', '.']].drop 1) = ['.', '.'] := rfl
  rw [htarget]
  rw [show cfgA.allowedDirectory = "/allowed".toList from rfl]
  rw [validatePath_dotdot sub hne hsl hdot]

/-- `executeCommand` under `cfgA` routes a trimmed, safe command that
starts with `cd ` to `handleCdCommand`, updating the cursor and
recording history from its result. -/
theorem executeCommand_cdStep (st : ShellState) (cmd : Str) (sid : Option Str)
    (now : Nat) (htrim : trim cmd = cmd) (hsafe : isSafeCommand cmd = true)
    (hpre : (['c', 'd', ' ']).isPrefixOf cmd = true) :
    executeCommand cfgA oracle0 now st cmd sid
      = ((handleCdCommand cfgA cmd st.currentDirectory).1,
         { currentDirectory := (handleCdCommand cfgA cmd st.currentDirectory).2
           commandHistory := addToHistory st.commandHistory sid cmd
             (handleCdCommand cfgA cmd st.currentDirectory).1 none now }) := by
  have hne : cmd ≠ [] := by
    intro he
    rw [he] at hpre
    simp [List.isPrefixOf] at hpre
  have hempty : cmd.isEmpty = false := by
    cases cmd with
    | nil => exact absurd rfl hne
    | cons a t => rfl
  have hena : (!cfgA.enabled) = false := rfl
  have hforb : isForbiddenCommand cmd cfgA.forbiddenCommands = false := rfl
  simp only [executeCommand, hena, hempty, htrim, hsafe, hforb, hpre, Bool.not_true,
    Bool.false_eq_true, if_false, if_true, ite_false, ite_true]

/-- Claim C8 (amended): from the root of the `/allowed` sandbox,
`cd <name>` (for any nonempty name of ordinary characters) moves the
cursor to `/allowed/<name>` with a success result, and a following
`cd ..` returns it exactly to `/allowed` — never above it — with a
success result; `cd ..` issued at the root leaves the cursor at the root
but yields an error result (`success = false`), not a success. -/
theorem claim8_cd_roundtrip_amended (sub : Str) (hne : sub ≠ [])
    (hp : ∀ c ∈ sub, isPlainChar c = true) :
    ((executeCommand cfgA oracle0 0 (initialState cfgA) (['c', 'd', ' '] ++ sub) none).1.success
        = true)
    ∧ ((executeCommand cfgA oracle0 0 (initialState cfgA) (['c', 'd', ' '] ++ sub) none).2.currentDirectory
        = "/allowed".toList ++ '/' :: sub)
    ∧ ((executeCommand cfgA oracle0 0
          (executeCommand cfgA oracle0 0 (initialState cfgA) (['c', 'd', ' '] ++ sub) none).2
          ("cd ..".toList) none).1.success = true)
    ∧ ((executeCommand cfgA oracle0 0
          (executeCommand cfgA oracle0 0 (initialState cfgA) (['c', 'd', ' '] ++ sub) none).2
          ("cd ..".toList) none).2.currentDirectory = "/allowed".toList)
    ∧ ((executeCommand cfgA oracle0 0 (initialState cfgA) ("cd ..".toList) none).1.success
        = false)
    ∧ ((executeCommand cfgA oracle0 0 (initialState cfgA) ("cd ..".toList) none).2.currentDirectory
        = "/allowed".toList) := by
  have hnws : ∀ c ∈ sub, isWs c = false := fun c hc => (plainChar_spec c (hp c hc)).1
  have hsl : '/' ∉ sub := fun hmem => (plainChar_spec _ (hp _ hmem)).2.1 rfl
  have hdot : '.' ∉ sub := fun hmem => (plainChar_spec _ (hp _ hmem)).2.2.2.1 rfl
  have hcmb : ∀ (x : Char), x ∉ (['c', 'd', ' '] : Str) → x ∉ sub
      → x ∉ (['c', 'd', ' '] ++ sub : Str) :=
    fun x h1 h2 hmem => (List.mem_append.mp hmem).elim h1 h2
  have hdollar : '$' ∉ sub := fun hmem => (plainChar_spec _ (hp _ hmem)).2.2.2.2.2.2.2.1 rfl
  have hpipe : '|' ∉ sub := fun hmem => (plainChar_spec _ (hp _ hmem)).2.2.2.2.1 rfl
  have hsemi : ';' ∉ sub := fun hmem => (plainChar_spec _ (hp _ hmem)).2.2.2.2.2.2.1 rfl
  have hamp : '&' ∉ sub := fun hmem => (plainChar_spec _ (hp _ hmem)).2.2.2.2.2.1 rfl
  have hbt : backtickChar ∉ sub :=
    fun hmem => (plainChar_spec _ (hp _ hmem)).2.2.2.2.2.2.2.2.2.2.2 rfl
  have hsafe1 : isSafeCommand (['c', 'd', ' '] ++ sub) = true :=
    isSafe_of_noSpecial _ (hcmb '.' (by decide) hdot) (hcmb '$' (by decide) hdollar)
      (hcmb backtickChar (by decide) hbt) (hcmb '|' (by decide) hpipe)
      (hcmb ';' (by decide) hsemi) (hcmb '&' (by decide) hamp)
  have htrim1 : trim (['c', 'd', ' '] ++ sub) = ['c', 'd', ' '] ++ sub :=
    trim_cd_append sub hne hnws
  have hpre1 : (['c', 'd', ' ']).isPrefixOf (['c', 'd', ' '] ++ sub) = true :=
    prefixOf_append ['c', 'd', ' '] sub
  have hstep1 := executeCommand_cdStep (initialState cfgA) (['c', 'd', ' '] ++ sub) none 0
    htrim1 hsafe1 hpre1
  have hcur : (initialState cfgA).currentDirectory = "/allowed".toList := rfl
  rw [hcur] at hstep1
  rw [handleCd_sub sub hne hnws hsl hdot] at hstep1
  have hstep2 := executeCommand_cdStep
    ((executeCommand cfgA oracle0 0 (initialState cfgA) (['c', 'd', ' '] ++ sub) none).2)
    ("cd ..".toList) none 0 (by decide) (by decide) (by decide)
  have hcur2 : ((executeCommand cfgA oracle0 0 (initialState cfgA)
      (['c', 'd', ' '] ++ sub) none).2).currentDirectory
      = "/allowed".toList ++ '/' :: sub := by
    rw [hstep1]
  rw [hcur2] at hstep2
  rw [handleCd_dotdot sub hne hsl hdot] at hstep2
  refine ⟨?_, ?_, ?_, ?_, ?_, ?_⟩
  · rw [hstep1]
  · rw [hstep1]
  · rw [hstep2]
  · rw [hstep2]
  · decide
  · decide

/-- Claim C8 (witness): the round trip with the concrete subdirectory
name `sub`. -/
theorem claim8_cd_roundtrip_witness :
    (("sub".toList : Str) ≠ [] ∧ (∀ c ∈ ("sub".toList : Str), isPlainChar c = true))
    ∧ (((executeCommand cfgA oracle0 0 (initialState cfgA) ("cd sub".toList) none).1.success
        = true)
      ∧ ((executeCommand cfgA oracle0 0 (initialState cfgA) ("cd sub".toList) none).2.currentDirectory
        = "/allowed/sub".toList)
      ∧ ((executeCommand cfgA oracle0 0
            (executeCommand cfgA oracle0 0 (initialState cfgA) ("cd sub".toList) none).2
            ("cd ..".toList) none).1.success = true)
      ∧ ((executeCommand cfgA oracle0 0
            (executeCommand cfgA oracle0 0 (initialState cfgA) ("cd sub".toList) none).2
            ("cd ..".toList) none).2.currentDirectory = "/allowed".toList)
      ∧ ((executeCommand cfgA oracle0 0 (initialState cfgA) ("cd ..".toList) none).1.success
        = false)
      ∧ ((executeCommand cfgA oracle0 0 (initialState cfgA) ("cd ..".toList) none).2.currentDirectory
        = "/allowed".toList)) := by
  have hmain := claim8_cd_roundtrip_amended ("sub".toList) (by decide) (by decide)
  have heq : (['c', 'd', ' '] ++ ("sub".toList) : Str) = "cd sub".toList := by decide
  have heq2 : ("/allowed".toList ++ '/' :: ("sub".toList) : Str) = "/allowed/sub".toList := by
    decide
  rw [heq, heq2] at hmain
  exact ⟨⟨by decide, by decide⟩, hmain⟩

end PluginShell
